import Mathlib

/-!
Shallow embedding of the go-soda SODA client (package `soda`, file `soda.go`)
and proofs about its query-serialization model and its paginated fetch
coordinator (`OffsetGetRequest`).

Modelling conventions:
* Go `url.Values` (a `map[string][]string`) is modelled as an association
  list `Values := List (String × List String)`; `mapAdd` models `uv.Add`,
  `mapAssign` models the map assignment `uv[key] = val`, `mapGet` models
  reading `uv[key]` (`[]` meaning the key is absent).  Go map iteration
  order is unspecified but the resulting map is order-independent here
  because each loop assigns each key at most once.
* Go `uint` (64-bit) is modelled as `Nat` with arithmetic reduced modulo
  `uintMod = 2 ^ 64` at the operations where the source can overflow;
  `int` is modelled as `Int` with the `int64` range checks of
  `strconv.Atoi` made explicit.
* The network is the boundary of the model: functions that in Go perform
  the HTTP GET instead return the serialized request (outcome
  `GetOutcome.request` / `NextOutcome.window`), and `GetRequest.Count`
  takes the network/decode result as an explicit `CountNet` oracle
  argument.  `url.Values.Encode` (percent-escaping and key sorting) is not
  modelled; the claims concern the parameter map itself.
* The `sync.Mutex` of `OffsetGetRequest` is modelled by a `locked` flag in
  the state: `m.Lock()` on a locked mutex never returns, modelled by the
  outcome `NextOutcome.blocked`.
* The `Metadata` and `HTTPClient` fields of `GetRequest` (metadata.go /
  the transport injection point) are omitted: no modelled function reads
  them.
-/

namespace GoSoda

/-- Association-list model of Go `url.Values` (`map[string][]string`). -/
abbrev Values := List (String × List String)

/-- Model of `url.Values.Add(key, val)`: appends `val` to the slice stored
under `key` (the first matching entry; Go map keys are unique), creating
the entry if absent. -/
def mapAdd (uv : Values) (key val : String) : Values :=
  match uv with
  | [] => [(key, [val])]
  | p :: rest => if p.1 = key then (p.1, p.2 ++ [val]) :: rest else p :: mapAdd rest key val

/-- Model of the Go map assignment `uv[key] = val`: replaces the slice
stored under `key` (the first matching entry; Go map keys are unique),
creating the entry if absent. -/
def mapAssign (uv : Values) (key : String) (val : List String) : Values :=
  match uv with
  | [] => [(key, val)]
  | p :: rest => if p.1 = key then (key, val) :: rest else p :: mapAssign rest key val

/-- Model of reading `uv[key]`: the stored slice, `[]` if the key is absent. -/
def mapGet (uv : Values) (key : String) : List String :=
  match uv.find? (fun p => p.1 = key) with
  | some p => p.2
  | none => []

/-- Key membership in a `Values` map. -/
def hasKey (uv : Values) (key : String) : Bool :=
  uv.any (fun p => p.1 = key)

/-- Model of `for key, val := range src { uv[key] = val }`. -/
def mergeValues (uv src : Values) : Values :=
  src.foldl (fun acc p => mapAssign acc p.1 p.2) uv

/-- A conditional one-entry map: the building block of the normal form of
`SoSQL.URLValues`. -/
def optEntry (c : Prop) [Decidable c] (key val : String) : Values :=
  if c then [(key, [val])] else []

/-- One entry of `SoSQL.Order` (the anonymous Go struct
`struct { Column string; Desc bool }`). -/
structure OrderEntry where
  Column : String
  Desc : Bool
deriving DecidableEq

/-- Go `type Direction bool`. -/
abbrev Direction := Bool

/-- `DirAsc Direction = false` — ascending sort order. -/
def DirAsc : Direction := false

/-- `DirDesc Direction = true` — descending sort order. -/
def DirDesc : Direction := true

/-- The `SoSQL` query struct of soda.go. -/
structure SoSQL where
  Select : List String
  Where : String
  Order : List OrderEntry
  Group : String
  Limit : Nat
  Offset : Nat
  Q : String
deriving DecidableEq

/-- `AddOrder` appends a sort key to `sq.Order`. -/
def SoSQL.AddOrder (sq : SoSQL) (column : String) (dir : Direction) : SoSQL :=
  { sq with Order := sq.Order ++ [⟨column, dir⟩] }

/-- `ClearOrder` resets `sq.Order` to the empty sequence. -/
def SoSQL.ClearOrder (sq : SoSQL) : SoSQL :=
  { sq with Order := [] }

/-- The string built for one order entry inside `SoSQL.URLValues`:
`o.Column + " DESC"` if `o.Desc`, else `o.Column + " ASC"`. -/
def orderString (o : OrderEntry) : String :=
  if o.Desc then o.Column ++ " DESC" else o.Column ++ " ASC"

/-- The `order` slice built by the loop in `SoSQL.URLValues`. -/
def orderStrings (l : List OrderEntry) : List String :=
  l.map orderString

/-- `SoSQL.URLValues`: emits `$select`, `$where`, `$order`, `$q`, `$group`
only when the field is non-empty and `$limit`, `$offset` only when
strictly positive, mirroring the if-guards of the source. -/
def SoSQL.URLValues (sq : SoSQL) : Values :=
  let uv : Values := []
  let uv := if sq.Select.length > 0 then mapAdd uv "$select" (String.intercalate "," sq.Select) else uv
  let uv := if sq.Where.length > 0 then mapAdd uv "$where" sq.Where else uv
  let uv := if sq.Order.length > 0 then mapAdd uv "$order" (String.intercalate "," (orderStrings sq.Order)) else uv
  let uv := if sq.Q.length > 0 then mapAdd uv "$q" sq.Q else uv
  let uv := if sq.Group.length > 0 then mapAdd uv "$group" sq.Group else uv
  let uv := if sq.Limit > 0 then mapAdd uv "$limit" (toString sq.Limit) else uv
  let uv := if sq.Offset > 0 then mapAdd uv "$offset" (toString sq.Offset) else uv
  uv

/-- `type SimpleFilters map[string]string`, modelled as an association
list (Go guarantees the keys are unique). -/
abbrev SimpleFilters := List (String × String)

/-- `SimpleFilters.URLValues`: `uv.Add(key, val)` for every filter entry. -/
def SimpleFilters.URLValues (sf : SimpleFilters) : Values :=
  sf.foldl (fun acc p => mapAdd acc p.1 p.2) []

/-- The `GetRequest` struct (the `Metadata` and `HTTPClient` fields are
omitted: no modelled function reads them). -/
structure GetRequest where
  apptoken : String
  endpoint : String
  Format : String
  Filters : SimpleFilters
  Query : SoSQL
deriving DecidableEq

/-- `GetRequest.URLValues` merges the filter parameters first and the
query parameters second, each loop assigning `uv[key] = val`. -/
def GetRequest.URLValues (r : GetRequest) : Values :=
  let uv : Values := []
  let uv := mergeValues uv (SimpleFilters.URLValues r.Filters)
  let uv := mergeValues uv (SoSQL.URLValues r.Query)
  uv

/-- Result of `GetRequest.Get` up to the network boundary: either the
fail-fast configuration error, or the serialized request that would be
sent on the wire. -/
inductive GetOutcome where
  | configErr
  | request (rawquery : Values)
deriving DecidableEq

/-- `GetRequest.Get`: fails fast when `Query.Offset > 0` with no order
set, otherwise issues the GET with `r.URLValues()`. -/
def GetRequest.Get (r : GetRequest) : GetOutcome :=
  if 0 < r.Query.Offset ∧ r.Query.Order.length = 0 then GetOutcome.configErr
  else GetOutcome.request r.URLValues

/-- Digits-to-value accumulator of a decimal digit list. -/
def digitsToNat (l : List Char) : Nat :=
  l.foldl (fun acc c => acc * 10 + (c.toNat - 48)) 0

/-- Every character is a decimal digit. -/
def allDigits (l : List Char) : Bool :=
  l.all (fun c => decide ('0' ≤ c) && decide (c ≤ '9'))

/-- Digit-and-range part of `strconv.Atoi`: at least one digit, all
characters digits, value within the `int64` range for the given sign. -/
def atoiDigits (neg : Bool) (digits : List Char) : Option Int :=
  if digits.isEmpty || !(allDigits digits) then none
  else if neg then
    (if digitsToNat digits ≤ 2 ^ 63 then some (-(digitsToNat digits : Int)) else none)
  else
    (if digitsToNat digits ≤ 2 ^ 63 - 1 then some ((digitsToNat digits : Int)) else none)

/-- Shallow embedding of Go `strconv.Atoi` on a 64-bit platform: an
optional leading sign followed by one or more decimal digits, rejected
(`none`, Go: a non-nil error) on empty input, stray characters, or
`int64` overflow. -/
def Atoi (s : String) : Option Int :=
  match s.data with
  | [] => none
  | c :: rest =>
    if c = '-' then atoiDigits true rest
    else if c = '+' then atoiDigits false rest
    else atoiDigits false (c :: rest)

/-- Go conversion `uint(i)` from `int`: two's-complement reduction
modulo `2 ^ 64`. -/
def uintOfInt (i : Int) : Nat :=
  (i % ((2 : Int) ^ 64)).toNat

instance {ε α : Type} [DecidableEq ε] [DecidableEq α] : DecidableEq (Except ε α) := fun x y =>
  match x, y with
  | Except.ok a, Except.ok b =>
      if h : a = b then isTrue (by rw [h]) else isFalse (by simp [h])
  | Except.error a, Except.error b =>
      if h : a = b then isTrue (by rw [h]) else isFalse (by simp [h])
  | Except.ok _, Except.error _ => isFalse (by simp)
  | Except.error _, Except.ok _ => isFalse (by simp)

/-- Modelled from the spec: a "valid non-negative integer string" — one or
more decimal digits, with no sign character. -/
def isNonNegIntStr (s : String) : Bool :=
  !s.data.isEmpty && allDigits s.data

/-- One element of the decoded count response
(`[]struct { Count string }`). -/
structure CountEntry where
  Count : String
deriving DecidableEq

/-- The tail of `GetRequest.Count` after JSON decoding: empty response is
an error, then `strconv.Atoi(count[0].Count)` and `uint(icount)`. -/
def countFromDecoded (decoded : List CountEntry) : Except String Nat :=
  match decoded with
  | [] => Except.error "empty count response"
  | c :: _ =>
    match Atoi c.Count with
    | none => Except.error "invalid syntax"
    | some i => Except.ok (uintOfInt i)

/-- Oracle for the network-and-decode part of `GetRequest.Count`: the GET
fails, the JSON decode fails, or decoding yields a `[]struct{Count string}`. -/
inductive CountNet where
  | httpErr (msg : String)
  | decodeErr (msg : String)
  | decoded (body : List CountEntry)
deriving DecidableEq

/-- `GetRequest.Count`: snapshots `Format`, `Query.Order`, `Query.Select`,
overrides them with `"json"` / cleared order / `["count(*)"]`, runs
`r.Get()`, parses the scalar, and restores the snapshot on every exit
path (the Go `defer`).  Returns the result together with the final state
of the request. -/
def GetRequest.Count (r0 : GetRequest) (net : CountNet) : Except String Nat × GetRequest :=
  let oldformat := r0.Format
  let oldorder := r0.Query.Order
  let oldselect := r0.Query.Select
  let restore : GetRequest → GetRequest := fun r =>
    { r with Format := oldformat,
             Query := { r.Query with Order := oldorder, Select := oldselect } }
  let r := { r0 with Format := "json",
                     Query := { r0.Query with Select := ["count(*)"], Order := [] } }
  match r.Get with
  | GetOutcome.configErr =>
      (Except.error "cannot use an offset without setting the order", restore r)
  | GetOutcome.request _ =>
      match net with
      | CountNet.httpErr m => (Except.error m, restore r)
      | CountNet.decodeErr m => (Except.error m, restore r)
      | CountNet.decoded body => (countFromDecoded body, restore r)

/-- Modulus of Go `uint` on a 64-bit platform. -/
def uintMod : Nat := 2 ^ 64

/-- The `OffsetGetRequest` struct: the wrapped `GetRequest`, the mutex
(modelled by `locked`), the shared offset counter and the count snapshot. -/
structure OffsetGetRequest where
  gr : GetRequest
  locked : Bool
  offset : Nat
  count : Nat
deriving DecidableEq

/-- `IsDone`: all records have been handed out. -/
def OffsetGetRequest.IsDone (o : OffsetGetRequest) : Bool :=
  o.count ≤ o.offset

/-- Outcome of one `Next` call: the caller blocks forever on the mutex,
`ErrDone`, the offset-without-order configuration error, or the window
`[off, off+number)` with the serialized request captured under the lock. -/
inductive NextOutcome where
  | blocked
  | done
  | orderErr
  | window (off number : Nat) (rawquery : Values)
deriving DecidableEq

/-- `OffsetGetRequest.Next`: locks the mutex, returns `ErrDone` when
exhausted, errors when no order is set (the source returns on this path
without unlocking), clamps the batch to the remaining count (`uint`
arithmetic, hence the reduction modulo `uintMod`), writes `Offset` and
`Limit` into the shared query, serializes it, advances the counter,
unlocks, and performs the GET outside the lock. -/
def OffsetGetRequest.Next (o0 : OffsetGetRequest) (number : Nat) : NextOutcome × OffsetGetRequest :=
  if o0.locked then (NextOutcome.blocked, o0)
  else
    let o := { o0 with locked := true }
    if o.IsDone then (NextOutcome.done, { o with locked := false })
    else if o.gr.Query.Order.length = 0 then (NextOutcome.orderErr, o)
    else
      let number := if o.count < (o.offset + number) % uintMod then o.count - o.offset else number
      let gr := { o.gr with Query := { o.gr.Query with Offset := o.offset, Limit := number } }
      let rawquery := gr.URLValues
      (NextOutcome.window o.offset number rawquery,
       { o with gr := gr, offset := (o.offset + number) % uintMod, locked := false })

/-- `NewOffsetGetRequest` with the result of the initial `gr.Count()`
supplied as the `count` argument (the count query is a network call). -/
def NewOffsetGetRequest (gr : GetRequest) (count : Nat) : OffsetGetRequest :=
  { gr := gr, locked := false, offset := 0, count := count }

/-- The effective batch computed by a window-producing `Next` call in the
overflow-free case: `batchSize`, clamped to the remaining count. -/
def nextNumber (o : OffsetGetRequest) (b : Nat) : Nat :=
  if o.count < o.offset + b then o.count - o.offset else b

/-- The shared `GetRequest` as mutated by a window-producing `Next` call. -/
def nextGr (o : OffsetGetRequest) (b : Nat) : GetRequest :=
  { o.gr with
      Query := { o.gr.Query with Offset := o.offset, Limit := nextNumber o b } }

/-- Runs a sequence of `Next` calls (one per batch size) on a session,
collecting the outcomes and the final state. -/
def runNext (o : OffsetGetRequest) : List Nat → List NextOutcome × OffsetGetRequest
  | [] => ([], o)
  | b :: bs =>
    let step := o.Next b
    let rest := runNext step.2 bs
    (step.1 :: rest.1, rest.2)

/-- The `(offset, effectiveBatch)` windows among a list of outcomes. -/
def windowsOf : List NextOutcome → List (Nat × Nat)
  | [] => []
  | NextOutcome.window off n _ :: rest => (off, n) :: windowsOf rest
  | _ :: rest => windowsOf rest

/-- Total number of records covered by a window list. -/
def sumSizes (ws : List (Nat × Nat)) : Nat :=
  (ws.map (fun w => w.2)).sum

/-- The windows are contiguous starting at `s`: each window starts where
the previous one ended. -/
def isChain : Nat → List (Nat × Nat) → Bool
  | _, [] => true
  | s, w :: rest => decide (w.1 = s) && isChain (s + w.2) rest

end GoSoda

namespace GoSoda

def sqEmpty : SoSQL := { Select := [], Where := "", Order := [], Group := "", Limit := 0, Offset := 0, Q := "" }

def g0 : GetRequest := { apptoken := "", endpoint := "ep", Format := "json", Filters := [], Query := { sqEmpty with Order := [⟨"zipcode", false⟩] } }

def gNoOrd : GetRequest := { g0 with Query := sqEmpty }

/-- An `OffsetGetRequest` mid-session: 5 of 10 records already handed out. -/
def o5 : OffsetGetRequest := { gr := g0, locked := false, offset := 5, count := 10 }

/-- A `GetRequest` with `Query.Offset = 20` and no sort key. -/
def rOff : GetRequest := { g0 with Query := { sqEmpty with Offset := 20 } }

/-- A `GetRequest` whose filter key `$limit` collides with the query key. -/
def rColl : GetRequest :=
  { g0 with Filters := [("$limit", "999"), ("item", "Radishes")],
            Query := { sqEmpty with Limit := 5 } }

end GoSoda

namespace GoSoda

theorem mapGet_nil (k : String) : mapGet [] k = [] := rfl

theorem mapGet_cons_self (p : String × List String) (rest : Values) (k : String)
    (h : p.1 = k) : mapGet (p :: rest) k = p.2 := by
  simp [mapGet, List.find?, h]

theorem mapGet_cons_ne (p : String × List String) (rest : Values) (k : String)
    (h : ¬ p.1 = k) : mapGet (p :: rest) k = mapGet rest k := by
  simp [mapGet, List.find?, h]

theorem hasKey_nil (k : String) : hasKey [] k = false := rfl

theorem hasKey_cons (p : String × List String) (rest : Values) (k : String) :
    hasKey (p :: rest) k = (decide (p.1 = k) || hasKey rest k) := by
  simp [hasKey]

theorem hasKey_append (a b : Values) (k : String) :
    hasKey (a ++ b) k = (hasKey a k || hasKey b k) := by
  simp [hasKey, List.any_append]

theorem mapGet_append (a b : Values) (k : String) :
    mapGet (a ++ b) k = if hasKey a k then mapGet a k else mapGet b k := by
  induction a with
  | nil => simp [mapGet_nil, hasKey_nil]
  | cons p rest ih =>
    by_cases h : p.1 = k
    · rw [List.cons_append, mapGet_cons_self p _ k h, mapGet_cons_self p rest k h,
        hasKey_cons]
      simp [h]
    · rw [List.cons_append, mapGet_cons_ne p _ k h, mapGet_cons_ne p rest k h,
        hasKey_cons, ih]
      simp [h]

theorem hasKey_optEntry (c : Prop) [Decidable c] (key val k : String) :
    hasKey (optEntry c key val) k = (decide c && decide (key = k)) := by
  unfold optEntry
  split
  · simp [hasKey, *]
  · simp [hasKey, *]

theorem mapGet_optEntry (c : Prop) [Decidable c] (key val k : String) :
    mapGet (optEntry c key val) k = if c ∧ key = k then [val] else [] := by
  unfold optEntry
  split
  · by_cases hk : key = k
    · rw [mapGet_cons_self _ _ _ hk]; simp [*]
    · rw [mapGet_cons_ne _ _ _ hk, mapGet_nil]; simp [*]
  · simp [mapGet_nil, *]

end GoSoda

namespace GoSoda

theorem mapAdd_fresh (uv : Values) (key val : String) (h : hasKey uv key = false) :
    mapAdd uv key val = uv ++ [(key, [val])] := by
  induction uv with
  | nil => rfl
  | cons p rest ih =>
    rw [hasKey_cons] at h
    simp only [Bool.or_eq_false_iff, decide_eq_false_iff_not] at h
    unfold mapAdd
    simp [h.1, ih h.2]

theorem step_eq (uv : Values) (c : Prop) [Decidable c] (k v : String)
    (h : hasKey uv k = false) :
    (if c then mapAdd uv k v else uv) = uv ++ optEntry c k v := by
  unfold optEntry
  split
  · exact mapAdd_fresh uv k v h
  · simp

theorem SoSQL.URLValues_eq (sq : SoSQL) :
    sq.URLValues =
      optEntry (sq.Select.length > 0) "$select" (String.intercalate "," sq.Select) ++
      optEntry (sq.Where.length > 0) "$where" sq.Where ++
      optEntry (sq.Order.length > 0) "$order" (String.intercalate "," (orderStrings sq.Order)) ++
      optEntry (sq.Q.length > 0) "$q" sq.Q ++
      optEntry (sq.Group.length > 0) "$group" sq.Group ++
      optEntry (sq.Limit > 0) "$limit" (toString sq.Limit) ++
      optEntry (sq.Offset > 0) "$offset" (toString sq.Offset) := by
  simp only [SoSQL.URLValues]
  rw [step_eq [] (sq.Select.length > 0) "$select" (String.intercalate "," sq.Select) rfl,
    List.nil_append]
  rw [step_eq _ (sq.Where.length > 0) "$where" sq.Where
    (by simp [hasKey_optEntry])]
  rw [step_eq _ (sq.Order.length > 0) "$order" (String.intercalate "," (orderStrings sq.Order))
    (by simp [hasKey_append, hasKey_optEntry])]
  rw [step_eq _ (sq.Q.length > 0) "$q" sq.Q
    (by simp [hasKey_append, hasKey_optEntry])]
  rw [step_eq _ (sq.Group.length > 0) "$group" sq.Group
    (by simp [hasKey_append, hasKey_optEntry])]
  rw [step_eq _ (sq.Limit > 0) "$limit" (toString sq.Limit)
    (by simp [hasKey_append, hasKey_optEntry])]
  rw [step_eq _ (sq.Offset > 0) "$offset" (toString sq.Offset)
    (by simp [hasKey_append, hasKey_optEntry])]

end GoSoda

namespace GoSoda

theorem URLValues_get_order (sq : SoSQL) (h : sq.Order ≠ []) :
    mapGet sq.URLValues "$order" = [String.intercalate "," (orderStrings sq.Order)] := by
  rw [SoSQL.URLValues_eq]
  simp [mapGet_append, hasKey_optEntry, mapGet_optEntry, List.length_pos, h]

theorem URLValues_get_limit (sq : SoSQL) (h : 0 < sq.Limit) :
    mapGet sq.URLValues "$limit" = [toString sq.Limit] := by
  rw [SoSQL.URLValues_eq]
  simp [mapGet_append, hasKey_optEntry, mapGet_optEntry, h]

theorem optEntry_keys (c : Prop) [Decidable c] (k v : String) :
    (optEntry c k v).map (fun p => p.1) = if c then [k] else [] := by
  unfold optEntry
  split <;> simp

theorem ite_singleton_sublist (c : Prop) [Decidable c] (k : String) :
    List.Sublist (if c then [k] else []) [k] := by
  split <;> simp

theorem URLValues_keys_sublist (sq : SoSQL) :
    List.Sublist ((SoSQL.URLValues sq).map (fun p => p.1))
      ["$select", "$where", "$order", "$q", "$group", "$limit", "$offset"] := by
  rw [SoSQL.URLValues_eq]
  simp only [List.map_append, optEntry_keys]
  show List.Sublist _ ((((((["$select"] ++ ["$where"]) ++ ["$order"]) ++ ["$q"]) ++
    ["$group"]) ++ ["$limit"]) ++ ["$offset"])
  exact List.Sublist.append
    (List.Sublist.append
      (List.Sublist.append
        (List.Sublist.append
          (List.Sublist.append
            (List.Sublist.append (ite_singleton_sublist _ _) (ite_singleton_sublist _ _))
            (ite_singleton_sublist _ _))
          (ite_singleton_sublist _ _))
        (ite_singleton_sublist _ _))
      (ite_singleton_sublist _ _))
    (ite_singleton_sublist _ _)

theorem URLValues_keys_nodup (sq : SoSQL) :
    ((SoSQL.URLValues sq).map (fun p => p.1)).Nodup :=
  (URLValues_keys_sublist sq).nodup (by decide)

theorem mapGet_mapAssign_self (uv : Values) (k : String) (v : List String) :
    mapGet (mapAssign uv k v) k = v := by
  induction uv with
  | nil => exact mapGet_cons_self _ _ _ rfl
  | cons p rest ih =>
    unfold mapAssign
    by_cases h : p.1 = k
    · rw [if_pos h]; exact mapGet_cons_self _ _ _ rfl
    · rw [if_neg h, mapGet_cons_ne _ _ _ h]; exact ih

theorem mapGet_mapAssign_ne (uv : Values) (k k' : String) (v : List String)
    (h : ¬ k = k') :
    mapGet (mapAssign uv k v) k' = mapGet uv k' := by
  induction uv with
  | nil => rw [mapGet_nil]; exact mapGet_cons_ne _ _ _ h
  | cons p rest ih =>
    unfold mapAssign
    by_cases hp : p.1 = k
    · rw [if_pos hp, mapGet_cons_ne (k, v) rest k' h,
        mapGet_cons_ne p rest k' (by rw [hp]; exact h)]
    · rw [if_neg hp]
      by_cases hpk : p.1 = k'
      · rw [mapGet_cons_self _ _ _ hpk, mapGet_cons_self _ _ _ hpk]
      · rw [mapGet_cons_ne _ _ _ hpk, mapGet_cons_ne _ _ _ hpk, ih]

theorem mergeValues_get_absent (src : Values) (k : String) :
    ∀ base : Values, hasKey src k = false →
      mapGet (mergeValues base src) k = mapGet base k := by
  induction src with
  | nil => intro base _; rfl
  | cons p rest ih =>
    intro base h
    rw [hasKey_cons] at h
    simp only [Bool.or_eq_false_iff, decide_eq_false_iff_not] at h
    exact (ih (mapAssign base p.1 p.2) h.2).trans
      (mapGet_mapAssign_ne base p.1 k p.2 h.1)

theorem hasKey_eq_false_of_notMem (uv : Values) (k : String)
    (h : k ∉ uv.map (fun p => p.1)) : hasKey uv k = false := by
  rw [hasKey, List.any_eq_false]
  intro p hp hk
  exact h (List.mem_map.mpr ⟨p, hp, of_decide_eq_true hk⟩)

theorem mergeValues_get_mem (src : Values) (k : String) (v : List String) :
    ∀ base : Values, (src.map (fun p => p.1)).Nodup → (k, v) ∈ src →
      mapGet (mergeValues base src) k = v := by
  induction src with
  | nil => intro base _ hmem; cases hmem
  | cons p rest ih =>
    intro base hnd hmem
    rw [List.map_cons, List.nodup_cons] at hnd
    cases hmem with
    | head =>
      show mapGet (mergeValues (mapAssign base k v) rest) k = v
      rw [mergeValues_get_absent rest k _ (hasKey_eq_false_of_notMem rest k hnd.1),
        mapGet_mapAssign_self]
    | tail _ hmemtail =>
      exact ih (mapAssign base p.1 p.2) hnd.2 hmemtail

theorem mem_of_hasKey (uv : Values) (k : String) (h : hasKey uv k = true) :
    (k, mapGet uv k) ∈ uv := by
  induction uv with
  | nil => cases h
  | cons p rest ih =>
    by_cases hp : p.1 = k
    · rw [mapGet_cons_self _ _ _ hp]
      obtain ⟨a, b⟩ := p
      cases hp
      exact List.mem_cons_self _ _
    · rw [mapGet_cons_ne _ _ _ hp]
      rw [hasKey_cons] at h
      simp [hp] at h
      exact List.mem_cons_of_mem _ (ih h)

theorem GetRequest.URLValues_get_query (r : GetRequest) (k : String)
    (h : hasKey (SoSQL.URLValues r.Query) k = true) :
    mapGet r.URLValues k = mapGet (SoSQL.URLValues r.Query) k :=
  mergeValues_get_mem (SoSQL.URLValues r.Query) k _
    (mergeValues [] (SimpleFilters.URLValues r.Filters))
    (URLValues_keys_nodup r.Query) (mem_of_hasKey _ k h)

end GoSoda

namespace GoSoda

theorem set_locked_false (o : OffsetGetRequest) (hl : o.locked = false) :
    { o with locked := false } = o := by
  cases o
  simp_all

theorem next_done_eq (o : OffsetGetRequest) (b : Nat) (hl : o.locked = false)
    (hd : o.count ≤ o.offset) :
    o.Next b = (NextOutcome.done, o) := by
  have he := set_locked_false o hl
  simp [OffsetGetRequest.Next, OffsetGetRequest.IsDone, hl, hd, he]

theorem next_orderErr_eq (o : OffsetGetRequest) (b : Nat) (hl : o.locked = false)
    (hact : o.offset < o.count) (hord : o.gr.Query.Order.length = 0) :
    o.Next b = (NextOutcome.orderErr, { o with locked := true }) := by
  have hna : ¬ o.count ≤ o.offset := Nat.not_le.mpr hact
  simp [OffsetGetRequest.Next, OffsetGetRequest.IsDone, hl, hna, hord]

theorem next_window_eq (o : OffsetGetRequest) (b : Nat) (hl : o.locked = false)
    (hact : o.offset < o.count) (hord : ¬ o.gr.Query.Order.length = 0)
    (hcW : o.count < uintMod) (hnov : o.offset + b < uintMod) :
    o.Next b =
      (NextOutcome.window o.offset (nextNumber o b) (GetRequest.URLValues (nextGr o b)),
       { o with
           gr := nextGr o b
           offset := o.offset + nextNumber o b
           locked := false }) := by
  have hna : ¬ o.count ≤ o.offset := Nat.not_le.mpr hact
  have hmod : (o.offset + b) % uintMod = o.offset + b := Nat.mod_eq_of_lt hnov
  by_cases hcl : o.count < o.offset + b
  · have h1 : o.offset + (o.count - o.offset) = o.count := Nat.add_sub_cancel' (le_of_lt hact)
    have h2 : o.count % uintMod = o.count := Nat.mod_eq_of_lt hcW
    simp [OffsetGetRequest.Next, OffsetGetRequest.IsDone, nextNumber, nextGr,
      hl, hna, hord, hmod, hcl, h1, h2]
  · simp [OffsetGetRequest.Next, OffsetGetRequest.IsDone, nextNumber, nextGr,
      hl, hna, hord, hmod, hcl]

theorem next_window_facts (o : OffsetGetRequest) (b : Nat) (hl : o.locked = false)
    (hact : o.offset < o.count) (hord : o.gr.Query.Order ≠ [])
    (hcW : o.count < uintMod) (hb1 : 1 ≤ b) (hnov : o.offset + b < uintMod) :
    ∃ n rq, (o.Next b).1 = NextOutcome.window o.offset n rq ∧
      1 ≤ n ∧
      (o.Next b).2.locked = false ∧
      (o.Next b).2.count = o.count ∧
      (o.Next b).2.gr.Query.Order = o.gr.Query.Order ∧
      (o.Next b).2.offset = o.offset + n ∧
      (o.Next b).2.offset ≤ o.count := by
  have hordl : ¬ o.gr.Query.Order.length = 0 := by
    intro hz
    exact hord (List.length_eq_zero.mp hz)
  have heq := next_window_eq o b hl hact hordl hcW hnov
  have hnn : 1 ≤ nextNumber o b := by
    unfold nextNumber
    split <;> omega
  have hle : o.offset + nextNumber o b ≤ o.count := by
    unfold nextNumber
    split <;> omega
  refine ⟨nextNumber o b, GetRequest.URLValues (nextGr o b), ?_, hnn, ?_, ?_, ?_, ?_, ?_⟩
  · rw [heq]
  · rw [heq]
  · rw [heq]
  · rw [heq]
    simp [nextGr]
  · rw [heq]
  · rw [heq]
    exact hle

end GoSoda

namespace GoSoda

theorem runNext_nil (o : OffsetGetRequest) : runNext o [] = ([], o) := rfl

theorem runNext_cons (o : OffsetGetRequest) (b : Nat) (bs : List Nat) :
    runNext o (b :: bs) =
      ((o.Next b).1 :: (runNext (o.Next b).2 bs).1, (runNext (o.Next b).2 bs).2) := rfl

theorem sumSizes_nil : sumSizes [] = 0 := rfl

theorem sumSizes_cons (w : Nat × Nat) (ws : List (Nat × Nat)) :
    sumSizes (w :: ws) = w.2 + sumSizes ws := by
  simp [sumSizes]

theorem isChain_le (ws : List (Nat × Nat)) :
    ∀ s, isChain s ws = true → ∀ w ∈ ws, s ≤ w.1 := by
  induction ws with
  | nil =>
    intro s _ w hw
    cases hw
  | cons w0 rest ih =>
    intro s hch w hw
    unfold isChain at hch
    simp only [Bool.and_eq_true, decide_eq_true_eq] at hch
    cases hw with
    | head => exact le_of_eq hch.1.symm
    | tail _ hmem => exact le_trans (Nat.le_add_right s w0.2) (ih (s + w0.2) hch.2 w hmem)

theorem isChain_pairwise (ws : List (Nat × Nat)) :
    ∀ s, isChain s ws = true →
      List.Pairwise (fun w1 w2 => w1.1 + w1.2 ≤ w2.1) ws := by
  induction ws with
  | nil =>
    intro s _
    exact List.Pairwise.nil
  | cons w0 rest ih =>
    intro s hch
    unfold isChain at hch
    simp only [Bool.and_eq_true, decide_eq_true_eq] at hch
    refine List.Pairwise.cons ?_ (ih (s + w0.2) hch.2)
    intro w hw
    have hle := isChain_le rest (s + w0.2) hch.2 w hw
    omega

theorem isChain_cover (ws : List (Nat × Nat)) :
    ∀ s, isChain s ws = true →
      ∀ i : Nat, (∃ w ∈ ws, w.1 ≤ i ∧ i < w.1 + w.2) ↔ (s ≤ i ∧ i < s + sumSizes ws) := by
  induction ws with
  | nil =>
    intro s _ i
    simp [sumSizes_nil]
  | cons w0 rest ih =>
    intro s hch i
    unfold isChain at hch
    simp only [Bool.and_eq_true, decide_eq_true_eq] at hch
    have hih := ih (s + w0.2) hch.2 i
    rw [sumSizes_cons]
    constructor
    · rintro ⟨w, hw, hcov⟩
      cases hw with
      | head => omega
      | tail _ hmem =>
        have := hih.mp ⟨w, hmem, hcov⟩
        omega
    · rintro ⟨h1, h2⟩
      by_cases hc : i < s + w0.2
      · exact ⟨w0, List.mem_cons_self _ _, by omega⟩
      · obtain ⟨w, hmem, hcov⟩ := hih.mpr (by omega)
        exact ⟨w, List.mem_cons_of_mem _ hmem, hcov⟩

theorem runNext_inv (bs : List Nat) :
    ∀ o : OffsetGetRequest,
      o.locked = false →
      o.gr.Query.Order ≠ [] →
      o.count < uintMod →
      o.offset ≤ o.count →
      (∀ b ∈ bs, 1 ≤ b ∧ b + o.count ≤ uintMod) →
      (runNext o bs).2.offset ≤ o.count ∧
      isChain o.offset (windowsOf (runNext o bs).1) = true ∧
      (runNext o bs).2.offset = o.offset + sumSizes (windowsOf (runNext o bs).1) ∧
      (∀ w ∈ windowsOf (runNext o bs).1, 1 ≤ w.2) ∧
      (NextOutcome.done ∈ (runNext o bs).1 → (runNext o bs).2.offset = o.count) := by
  induction bs with
  | nil =>
    intro o hl hord hcW hoff _
    refine ⟨hoff, rfl, by simp [runNext_nil, windowsOf, sumSizes_nil], ?_, ?_⟩
    · intro w hw
      cases hw
    · intro hmem
      cases hmem
  | cons b bs ih =>
    intro o hl hord hcW hoff hb
    have hbtail : ∀ x ∈ bs, 1 ≤ x ∧ x + o.count ≤ uintMod :=
      fun x hx => hb x (List.mem_cons_of_mem b hx)
    have hbhead := hb b (List.mem_cons_self b bs)
    by_cases hdone : o.count ≤ o.offset
    · have hoeq : o.offset = o.count := le_antisymm hoff hdone
      have hstep := next_done_eq o b hl hdone
      have hfst : (o.Next b).1 = NextOutcome.done := by rw [hstep]
      have hsnd : (o.Next b).2 = o := by rw [hstep]
      obtain ⟨ih1, ih2, ih3, ih4, ih5⟩ := ih o hl hord hcW hoff hbtail
      rw [runNext_cons, hfst, hsnd]
      refine ⟨ih1, ?_, ?_, ?_, ?_⟩
      · simpa [windowsOf] using ih2
      · simpa [windowsOf] using ih3
      · simpa [windowsOf] using ih4
      · intro _
        show (runNext o bs).2.offset = o.count
        omega
    · have hact : o.offset < o.count := Nat.lt_of_not_le hdone
      have hnov : o.offset + b < uintMod := by omega
      obtain ⟨n, rq, heq1, hn1, hl2, hc2, hord2, hoeq2, hole2⟩ :=
        next_window_facts o b hl hact hord hcW hbhead.1 hnov
      have hord2ne : (o.Next b).2.gr.Query.Order ≠ [] := by
        rw [hord2]; exact hord
      have hcW2 : (o.Next b).2.count < uintMod := by rw [hc2]; exact hcW
      have hoff2 : (o.Next b).2.offset ≤ (o.Next b).2.count := by rw [hc2]; exact hole2
      have hbtail2 : ∀ x ∈ bs, 1 ≤ x ∧ x + (o.Next b).2.count ≤ uintMod := by
        rw [hc2]; exact hbtail
      obtain ⟨ih1, ih2, ih3, ih4, ih5⟩ :=
        ih ((o.Next b).2) hl2 hord2ne hcW2 hoff2 hbtail2
      rw [runNext_cons, heq1]
      rw [hc2] at ih1 ih5
      refine ⟨ih1, ?_, ?_, ?_, ?_⟩
      · show (decide (o.offset = o.offset) && isChain (o.offset + n)
          (windowsOf (runNext (o.Next b).2 bs).1)) = true
        rw [← hoeq2]
        simp [ih2]
      · show (runNext (o.Next b).2 bs).2.offset =
          o.offset + sumSizes ((o.offset, n) :: windowsOf (runNext (o.Next b).2 bs).1)
        rw [sumSizes_cons]
        omega
      · intro w hw
        rw [windowsOf] at hw
        cases hw with
        | head => exact hn1
        | tail _ hmem => exact ih4 w hmem
      · intro hmem
        rw [List.mem_cons] at hmem
        cases hmem with
        | inl h => cases h
        | inr h => exact ih5 h

end GoSoda

namespace GoSoda

theorem atoiDigits_false_eq (digits : List Char) (hne : digits ≠ [])
    (hd : allDigits digits = true) (hr : digitsToNat digits ≤ 2 ^ 63 - 1) :
    atoiDigits false digits = some ((digitsToNat digits : Int)) := by
  unfold atoiDigits
  have hie : digits.isEmpty = false := by
    cases digits with
    | nil => exact absurd rfl hne
    | cons c rest => rfl
  rw [hie, hd]
  simp
  omega

theorem uintOfInt_ofNat (n : Nat) (h : n < 2 ^ 64) : uintOfInt (n : Int) = n := by
  unfold uintOfInt
  omega

theorem Atoi_nonneg (s : String) (h1 : s.data ≠ []) (h2 : allDigits s.data = true)
    (hr : digitsToNat s.data ≤ 2 ^ 63 - 1) :
    Atoi s = some ((digitsToNat s.data : Int)) := by
  cases hs : s.data with
  | nil => exact absurd hs h1
  | cons c rest =>
    have hcb : (decide ('0' ≤ c) && decide (c ≤ '9')) = true := by
      rw [hs] at h2
      unfold allDigits at h2
      rw [List.all_cons, Bool.and_eq_true] at h2
      exact h2.1
    have hc0 : '0' ≤ c := by
      rw [Bool.and_eq_true] at hcb
      exact of_decide_eq_true hcb.1
    have hcm : ¬ c = '-' := by
      intro hceq
      rw [hceq] at hc0
      exact absurd hc0 (by decide)
    have hcp : ¬ c = '+' := by
      intro hceq
      rw [hceq] at hc0
      exact absurd hc0 (by decide)
    have hd2 : allDigits (c :: rest) = true := by rw [← hs]; exact h2
    have hr2 : digitsToNat (c :: rest) ≤ 2 ^ 63 - 1 := by rw [← hs]; exact hr
    have hgoal : Atoi s = atoiDigits false (c :: rest) := by
      unfold Atoi
      rw [hs]
      show (if c = '-' then atoiDigits true rest
        else if c = '+' then atoiDigits false rest
        else atoiDigits false (c :: rest)) = atoiDigits false (c :: rest)
      rw [if_neg hcm, if_neg hcp]
    rw [hgoal]
    exact atoiDigits_false_eq (c :: rest) (by simp) hd2 hr2

end GoSoda

namespace GoSoda

theorem URLValues_hasKey_limit (sq : SoSQL) (h : 0 < sq.Limit) :
    hasKey sq.URLValues "$limit" = true := by
  rw [SoSQL.URLValues_eq]
  simp [hasKey_append, hasKey_optEntry, h]

theorem foldl_AddOrder_Order (calls : List (String × Bool)) :
    ∀ sq : SoSQL,
      (calls.foldl (fun s c => SoSQL.AddOrder s c.1 c.2) sq).Order
        = sq.Order ++ calls.map (fun c => OrderEntry.mk c.1 c.2) := by
  induction calls with
  | nil =>
    intro sq
    simp
  | cons c cs ih =>
    intro sq
    rw [List.foldl_cons, ih]
    simp [SoSQL.AddOrder]

theorem string_length_pos (s : String) : 0 < s.length ↔ s ≠ "" := by
  have hd : s.length = s.data.length := rfl
  rw [hd, List.length_pos]
  constructor
  · intro h hs
    rw [hs] at h
    exact h rfl
  · intro h hdnil
    exact h (String.ext (by rw [hdnil]))

end GoSoda

namespace GoSoda

/-- C2: the claim says every return path of `OffsetGetRequest.Next` releases
the mutex it acquires on entry.  The code contradicts this: on the
empty-sort-key error path `Next` returns while still holding the lock, so
the next `Next` call on the same session blocks forever.  This theorem
evaluates the code at such a session: the error return leaves `locked =
true` and a subsequent call blocks. -/
theorem C2_next_orderErr_mutex_held :
    ((NewOffsetGetRequest gNoOrd 10).Next 7).1 = NextOutcome.orderErr ∧
    ((NewOffsetGetRequest gNoOrd 10).Next 7).2.locked = true ∧
    (((NewOffsetGetRequest gNoOrd 10).Next 7).2.Next 7).1 = NextOutcome.blocked := by
  decide

/-- C4: on an exhausted session (`offset ≥ count`, including one built with
`total = 0`), `Next` returns `ErrDone`, performs no request (the outcome is
not a `window`), leaves the state — in particular `offset` and the lock —
unchanged, and therefore every repeated call returns the same terminal
outcome. -/
theorem C4_exhausted_next_done (o : OffsetGetRequest) (b : Nat)
    (hl : o.locked = false) (hd : o.count ≤ o.offset) :
    o.Next b = (NextOutcome.done, o) ∧ (o.Next b).2.Next b = (NextOutcome.done, o) := by
  have h := next_done_eq o b hl hd
  refine ⟨h, ?_⟩
  rw [h]
  exact next_done_eq o b hl hd

/-- Witness for C4 at a session constructed with `total = 0`. -/
theorem C4_witness :
    (NewOffsetGetRequest g0 0).locked = false ∧
    (NewOffsetGetRequest g0 0).count ≤ (NewOffsetGetRequest g0 0).offset ∧
    (NewOffsetGetRequest g0 0).Next 2000 = (NextOutcome.done, NewOffsetGetRequest g0 0) :=
  ⟨rfl, by decide,
    (C4_exhausted_next_done (NewOffsetGetRequest g0 0) 2000 rfl (by decide)).1⟩

/-- C5: with a positive offset and no sort key, `GetRequest.Get` fails fast
with the configuration error (no request outcome is produced); likewise an
active `OffsetGetRequest` session with no sort key fails `Next` with the
configuration error, produces no request and does not advance the shared
offset counter. -/
theorem C5_offset_without_order_fails :
    (∀ r : GetRequest, 0 < r.Query.Offset → r.Query.Order = [] →
       r.Get = GetOutcome.configErr) ∧
    (∀ (o : OffsetGetRequest) (b : Nat), o.locked = false → o.offset < o.count →
       o.gr.Query.Order = [] →
       (o.Next b).1 = NextOutcome.orderErr ∧ (o.Next b).2.offset = o.offset) := by
  constructor
  · intro r h1 h2
    unfold GetRequest.Get
    rw [if_pos ⟨h1, by rw [h2]; rfl⟩]
  · intro o b hl hact hord
    have heq := next_orderErr_eq o b hl hact (by rw [hord]; rfl)
    constructor
    · rw [heq]
    · rw [heq]

/-- Witness for C5: a request with offset 20 and empty order, and an active
session with empty order. -/
theorem C5_witness :
    (0 < rOff.Query.Offset ∧ rOff.Query.Order = [] ∧ rOff.Get = GetOutcome.configErr) ∧
    ((NewOffsetGetRequest gNoOrd 10).offset < (NewOffsetGetRequest gNoOrd 10).count ∧
     (NewOffsetGetRequest gNoOrd 10).gr.Query.Order = [] ∧
     ((NewOffsetGetRequest gNoOrd 10).Next 7).1 = NextOutcome.orderErr ∧
     ((NewOffsetGetRequest gNoOrd 10).Next 7).2.offset = (NewOffsetGetRequest gNoOrd 10).offset) :=
  ⟨⟨by decide, rfl, C5_offset_without_order_fails.1 rOff (by decide) rfl⟩,
   ⟨by decide, rfl,
     (C5_offset_without_order_fails.2 (NewOffsetGetRequest gNoOrd 10) 7 rfl (by decide) rfl).1,
     (C5_offset_without_order_fails.2 (NewOffsetGetRequest gNoOrd 10) 7 rfl (by decide) rfl).2⟩⟩

/-- C7: `GetRequest.Count` restores `Format`, `Query.Select` and
`Query.Order` on every exit path — configuration error, transport error,
decode error, or success. -/
theorem C7_count_restores_fields (r : GetRequest) (net : CountNet) :
    (r.Count net).2.Format = r.Format ∧
    (r.Count net).2.Query.Select = r.Query.Select ∧
    (r.Count net).2.Query.Order = r.Query.Order := by
  simp only [GetRequest.Count]
  split
  · exact ⟨rfl, rfl, rfl⟩
  · cases net <;> exact ⟨rfl, rfl, rfl⟩

end GoSoda

namespace GoSoda

/-- C8: `SoSQL.URLValues` emits each key exactly when the corresponding
field is non-default: `$select`/`$order` for non-empty lists,
`$where`/`$q`/`$group` for non-empty strings, and `$limit`/`$offset` only
when strictly positive.  (The serializer is a pure function of the query —
it never mutates `sq` — so repeated calls yield the same key set and value
strings by construction of the model.) -/
theorem C8_urlvalues_omits_defaults (sq : SoSQL) :
    (hasKey sq.URLValues "$select" = true ↔ sq.Select ≠ []) ∧
    (hasKey sq.URLValues "$where" = true ↔ sq.Where ≠ "") ∧
    (hasKey sq.URLValues "$order" = true ↔ sq.Order ≠ []) ∧
    (hasKey sq.URLValues "$q" = true ↔ sq.Q ≠ "") ∧
    (hasKey sq.URLValues "$group" = true ↔ sq.Group ≠ "") ∧
    (hasKey sq.URLValues "$limit" = true ↔ 0 < sq.Limit) ∧
    (hasKey sq.URLValues "$offset" = true ↔ 0 < sq.Offset) := by
  rw [SoSQL.URLValues_eq]
  refine ⟨?_, ?_, ?_, ?_, ?_, ?_, ?_⟩ <;>
    simp [hasKey_append, hasKey_optEntry, List.length_pos, string_length_pos]

/-- C9: the `$order` value serialized after a sequence of `AddOrder` calls
(starting from an empty order list) is the comma-joined list of
`column DESC` / `column ASC` entries in exactly the insertion order of the
calls. -/
theorem C9_order_serialization (calls : List (String × Bool)) (sq0 : SoSQL)
    (h0 : sq0.Order = []) (hne : calls ≠ []) :
    mapGet (calls.foldl (fun s c => SoSQL.AddOrder s c.1 c.2) sq0).URLValues "$order"
      = [String.intercalate ","
          (calls.map (fun c => if c.2 then c.1 ++ " DESC" else c.1 ++ " ASC"))] := by
  have hOrd : (calls.foldl (fun s c => SoSQL.AddOrder s c.1 c.2) sq0).Order
      = calls.map (fun c => OrderEntry.mk c.1 c.2) := by
    rw [foldl_AddOrder_Order calls sq0, h0, List.nil_append]
  have hne2 : (calls.foldl (fun s c => SoSQL.AddOrder s c.1 c.2) sq0).Order ≠ [] := by
    rw [hOrd]
    intro hnil
    exact hne (List.map_eq_nil_iff.mp hnil)
  rw [URLValues_get_order _ hne2, hOrd]
  rw [orderStrings, List.map_map]
  rfl

/-- Witness for C9: the two `AddOrder` calls of the README example. -/
theorem C9_witness :
    sqEmpty.Order = [] ∧
    mapGet (([("category", true), ("farm_name", false)].foldl
        (fun s c => SoSQL.AddOrder s c.1 c.2) sqEmpty)).URLValues "$order"
      = ["category DESC,farm_name ASC"] :=
  ⟨rfl,
    (C9_order_serialization [("category", true), ("farm_name", false)] sqEmpty rfl
      (by decide)).trans (by decide)⟩

/-- C10: in the merged parameter set of `GetRequest.URLValues` the filter
entries are assigned first and the query entries second, so on a key
present in both maps the query-model value is the one that survives. -/
theorem C10_query_overwrites_filters (r : GetRequest) (k : String)
    (_hf : hasKey (SimpleFilters.URLValues r.Filters) k = true)
    (hq : hasKey (SoSQL.URLValues r.Query) k = true) :
    mapGet r.URLValues k = mapGet (SoSQL.URLValues r.Query) k :=
  GetRequest.URLValues_get_query r k hq

/-- Witness for C10: the filter key `$limit` collides with the query key
and the query value `5` wins over the filter value `999`. -/
theorem C10_witness :
    (hasKey (SimpleFilters.URLValues rColl.Filters) "$limit" = true ∧
     hasKey (SoSQL.URLValues rColl.Query) "$limit" = true) ∧
    mapGet rColl.URLValues "$limit" = mapGet (SoSQL.URLValues rColl.Query) "$limit" ∧
    mapGet rColl.URLValues "$limit" = ["5"] :=
  ⟨⟨by decide, by decide⟩,
   C10_query_overwrites_filters rColl "$limit" (by decide) (by decide),
   by decide⟩

end GoSoda

namespace GoSoda

/-- C3 counterexample: the claim as stated quantifies over every
`batchSize`, but Go `uint` addition wraps: at `offset = 5`, `total = 10`,
`batchSize = 2^64 - 1` the test `offset + number > count` wraps to
`4 > 10`, so no clamp happens — the handed-out window has effective batch
`2^64 - 1`, not `min(batchSize, total - offset) = 5`, and extends far past
`total`. -/
theorem C3_counterexample :
    windowsOf [(o5.Next (uintMod - 1)).1] = [(5, uintMod - 1)] ∧
    min (uintMod - 1) (o5.count - o5.offset) = 5 ∧
    uintMod - 1 ≠ 5 ∧
    o5.count < 5 + (uintMod - 1) := by decide

/-- C3 (amended with the overflow-free hypothesis
`offset + batchSize < 2^64`): an active session's `Next` call uses the
effective batch `min(batchSize, total - offset)`, the window never extends
past `total`, and the serialized `$limit` parameter equals the effective
batch whenever it is positive. -/
theorem C3_effective_batch_clamped (o : OffsetGetRequest) (b : Nat)
    (hl : o.locked = false) (hact : o.offset < o.count) (hord : o.gr.Query.Order ≠ [])
    (hcW : o.count < uintMod) (hnov : o.offset + b < uintMod) :
    (o.Next b).1 = NextOutcome.window o.offset (min b (o.count - o.offset))
        (GetRequest.URLValues (nextGr o b)) ∧
    o.offset + min b (o.count - o.offset) ≤ o.count ∧
    (0 < min b (o.count - o.offset) →
      mapGet (GetRequest.URLValues (nextGr o b)) "$limit"
        = [toString (min b (o.count - o.offset))]) := by
  have hordl : ¬ o.gr.Query.Order.length = 0 := fun hz => hord (List.length_eq_zero.mp hz)
  have heq := next_window_eq o b hl hact hordl hcW hnov
  have hmin : nextNumber o b = min b (o.count - o.offset) := by
    unfold nextNumber
    split <;> omega
  have hfst : (o.Next b).1
      = NextOutcome.window o.offset (nextNumber o b) (GetRequest.URLValues (nextGr o b)) := by
    rw [heq]
  refine ⟨?_, ?_, ?_⟩
  · rw [hfst, hmin]
  · rw [← hmin]
    unfold nextNumber
    split <;> omega
  · intro hpos
    have hq : (nextGr o b).Query.Limit = nextNumber o b := rfl
    have hpos' : 0 < (nextGr o b).Query.Limit := by
      rw [hq, hmin]
      exact hpos
    rw [GetRequest.URLValues_get_query (nextGr o b) "$limit" (URLValues_hasKey_limit _ hpos'),
      URLValues_get_limit _ hpos', hq, hmin]

/-- Witness for C3 at `offset = 5`, `total = 10`, `batchSize = 7`: the
effective batch is clamped to 5 and `$limit` is serialized as `5`. -/
theorem C3_witness :
    (o5.locked = false ∧ o5.offset < o5.count ∧ o5.gr.Query.Order ≠ [] ∧
     o5.count < uintMod ∧ o5.offset + 7 < uintMod) ∧
    ((o5.Next 7).1 = NextOutcome.window o5.offset (min 7 (o5.count - o5.offset))
        (GetRequest.URLValues (nextGr o5 7)) ∧
      o5.offset + min 7 (o5.count - o5.offset) ≤ o5.count ∧
      (0 < min 7 (o5.count - o5.offset) →
        mapGet (GetRequest.URLValues (nextGr o5 7)) "$limit"
          = [toString (min 7 (o5.count - o5.offset))])) :=
  ⟨⟨rfl, by decide, by decide, by decide, by decide⟩,
    C3_effective_batch_clamped o5 7 rfl (by decide) (by decide) (by decide) (by decide)⟩

/-- C6 counterexample: `strconv.Atoi` accepts signed integers, so the count
field `"-5"` — not a valid non-negative integer string — does not make
`Count` fail: the parse succeeds with `-5` and `uint(-5)` yields
`2^64 - 5`. -/
theorem C6_counterexample :
    isNonNegIntStr "-5" = false ∧
    countFromDecoded [⟨"-5"⟩] = Except.ok (2 ^ 64 - 5) := by decide

/-- C6 (amended): the count parse fails exactly when the decoded sequence
is empty or the first count field is not a valid `strconv.Atoi` integer
(optionally signed decimal within the `int64` range); on success it
returns `uint(parsed)`, i.e. the parsed value reduced modulo `2^64` —
which equals the denoted number for a plain digit string in range. -/
theorem C6_count_parse :
    countFromDecoded [] = Except.error "empty count response" ∧
    (∀ (c : CountEntry) (rest : List CountEntry), Atoi c.Count = none →
       countFromDecoded (c :: rest) = Except.error "invalid syntax") ∧
    (∀ (c : CountEntry) (rest : List CountEntry) (i : Int), Atoi c.Count = some i →
       countFromDecoded (c :: rest) = Except.ok (uintOfInt i)) ∧
    (∀ (c : CountEntry) (rest : List CountEntry),
       isNonNegIntStr c.Count = true → digitsToNat c.Count.data ≤ 2 ^ 63 - 1 →
       countFromDecoded (c :: rest) = Except.ok (digitsToNat c.Count.data)) := by
  refine ⟨rfl, ?_, ?_, ?_⟩
  · intro c rest h
    show (match Atoi c.Count with
      | none => Except.error "invalid syntax"
      | some i => Except.ok (uintOfInt i)) = Except.error "invalid syntax"
    rw [h]
  · intro c rest i h
    show (match Atoi c.Count with
      | none => Except.error "invalid syntax"
      | some i => Except.ok (uintOfInt i)) = Except.ok (uintOfInt i)
    rw [h]
  · intro c rest h1 h2
    unfold isNonNegIntStr at h1
    rw [Bool.and_eq_true] at h1
    have hne : c.Count.data ≠ [] := by
      intro hnil
      rw [hnil] at h1
      exact absurd h1.1 (by decide)
    have hAtoi := Atoi_nonneg c.Count hne h1.2 h2
    show (match Atoi c.Count with
      | none => Except.error "invalid syntax"
      | some i => Except.ok (uintOfInt i)) = Except.ok (digitsToNat c.Count.data)
    rw [hAtoi]
    show Except.ok (uintOfInt ((digitsToNat c.Count.data : Int)))
      = Except.ok (digitsToNat c.Count.data)
    rw [uintOfInt_ofNat _ (by omega)]

/-- Witness for C6 on the digit string `"17"`. -/
theorem C6_witness :
    isNonNegIntStr "17" = true ∧
    countFromDecoded [⟨"17"⟩] = Except.ok 17 :=
  ⟨by decide,
    (C6_count_parse.2.2.2 ⟨"17"⟩ [] (by decide) (by decide)).trans (by decide)⟩

end GoSoda

namespace GoSoda

/-- C1 (amended with positive batch sizes and the overflow-free bound
`batchSize + T ≤ 2^64`): for a fresh session with total `T` and any
sequence of `Next` calls that reaches the exhaustion signal `ErrDone`, the
handed-out windows form a contiguous chain starting at 0 (each window
starts where the previous ended), are pairwise disjoint, have strictly
increasing offsets, and their union is exactly `{0, ..., T-1}` — no record
index is duplicated or skipped. -/
theorem C1_next_windows_partition (g : GetRequest) (T : Nat) (bs : List Nat)
    (hT : T < uintMod)
    (hord : g.Query.Order ≠ [])
    (hb : ∀ b ∈ bs, 1 ≤ b ∧ b + T ≤ uintMod)
    (hdone : NextOutcome.done ∈ (runNext (NewOffsetGetRequest g T) bs).1) :
    isChain 0 (windowsOf (runNext (NewOffsetGetRequest g T) bs).1) = true ∧
    List.Pairwise (fun w1 w2 => w1.1 + w1.2 ≤ w2.1)
      (windowsOf (runNext (NewOffsetGetRequest g T) bs).1) ∧
    List.Pairwise (fun w1 w2 => w1.1 < w2.1)
      (windowsOf (runNext (NewOffsetGetRequest g T) bs).1) ∧
    (∀ i : Nat, (∃ w ∈ windowsOf (runNext (NewOffsetGetRequest g T) bs).1,
        w.1 ≤ i ∧ i < w.1 + w.2) ↔ i < T) := by
  obtain ⟨h1, h2, h3, h4, h5⟩ :=
    runNext_inv bs (NewOffsetGetRequest g T) rfl hord hT (Nat.zero_le T) hb
  have hfin : (runNext (NewOffsetGetRequest g T) bs).2.offset = T := h5 hdone
  have hcT : (NewOffsetGetRequest g T).count = T := rfl
  have hoZ : (NewOffsetGetRequest g T).offset = 0 := rfl
  have hsum : sumSizes (windowsOf (runNext (NewOffsetGetRequest g T) bs).1) = T := by
    omega
  have hp := isChain_pairwise _ 0 h2
  refine ⟨h2, hp, ?_, ?_⟩
  · refine List.Pairwise.imp_of_mem ?_ hp
    intro w1 w2 hm1 hm2 hle
    have hw1 := h4 w1 hm1
    omega
  · intro i
    rw [isChain_cover _ 0 h2 i, hsum]
    omega

/-- C1 counterexample: a run that does reach `ErrDone` can violate the
claim both through a zero batch size and through `uint` wrap-around: at
`T = 10` the batch sequence `[0, 5, 2^64 - 1, 6, 1]` yields the windows
`[(0,0), (0,5), (5, 2^64-1), (4,6)]` — offsets are not strictly
increasing (the zero batch repeats offset 0), the windows are not pairwise
disjoint (the wrapped window overlaps the next one), and index 12 ≥ T is
covered. -/
theorem C1_counterexample :
    NextOutcome.done ∈ (runNext (NewOffsetGetRequest g0 10) [0, 5, uintMod - 1, 6, 1]).1 ∧
    ¬ List.Pairwise (fun w1 w2 => w1.1 + w1.2 ≤ w2.1)
        (windowsOf (runNext (NewOffsetGetRequest g0 10) [0, 5, uintMod - 1, 6, 1]).1) ∧
    ¬ List.Pairwise (fun w1 w2 => w1.1 < w2.1)
        (windowsOf (runNext (NewOffsetGetRequest g0 10) [0, 5, uintMod - 1, 6, 1]).1) ∧
    ¬ (∀ i : Nat, (∃ w ∈ windowsOf (runNext (NewOffsetGetRequest g0 10)
          [0, 5, uintMod - 1, 6, 1]).1, w.1 ≤ i ∧ i < w.1 + w.2) ↔ i < 10) := by
  have hw : windowsOf (runNext (NewOffsetGetRequest g0 10) [0, 5, uintMod - 1, 6, 1]).1
      = [(0, 0), (0, 5), (5, uintMod - 1), (4, 6)] := by decide
  refine ⟨by decide, ?_, ?_, ?_⟩
  · rw [hw]
    intro hp
    have h45 := ((List.pairwise_cons.mp
      (List.pairwise_cons.mp (List.pairwise_cons.mp hp).2).2).1) (4, 6) (by simp)
    exact absurd h45 (by decide)
  · rw [hw]
    intro hp
    have h00 := (List.pairwise_cons.mp hp).1 (0, 5) (by simp)
    exact absurd h00 (by decide)
  · rw [hw]
    intro hall
    have h12 := (hall 12).mp ⟨(5, uintMod - 1), by simp, by decide⟩
    exact absurd h12 (by decide)

/-- Witness for C1: total 5 fetched in batches of 2, the fourth call
signalling exhaustion; the three windows partition `{0,...,4}`. -/
theorem C1_witness :
    (5 < uintMod ∧ g0.Query.Order ≠ [] ∧
      (∀ b ∈ [2, 2, 2, 2], 1 ≤ b ∧ b + 5 ≤ uintMod) ∧
      NextOutcome.done ∈ (runNext (NewOffsetGetRequest g0 5) [2, 2, 2, 2]).1) ∧
    (∀ i : Nat, (∃ w ∈ windowsOf (runNext (NewOffsetGetRequest g0 5) [2, 2, 2, 2]).1,
        w.1 ≤ i ∧ i < w.1 + w.2) ↔ i < 5) :=
  ⟨⟨by decide, by decide, by decide, by decide⟩,
    (C1_next_windows_partition g0 5 [2, 2, 2, 2] (by decide) (by decide) (by decide)
      (by decide)).2.2.2⟩

end GoSoda
